import Mathlib

/-
Verification development for the piggy-tracker offline-first data layer.

The definitions below are a shallow embedding of the repository's core:

* `src/app/lib/validation.ts`    — amount parsing / transaction draft validation
* `src/app/db/repository.ts`     — transaction & category repositories
* `src/app/services/categories.ts` — default category seeding, removeCategory
* `src/app/services/transactions.ts` — active transactions, aggregates
* `src/app/services/maintenance.ts`  — tombstone purge policy
* `src/app/services/supabaseSync.ts` — pull/push phases and syncAll

Modelling conventions:
* JavaScript numbers are modelled as exact rationals (`ℚ`); `NaN` and the
  infinities are explicit constructors of `JSNum`.  JS `Math.round` (half
  toward +∞) is `jsRound`.
* Timestamps (`Date` values, ISO strings compared by the remote) are modelled
  as integers `ℤ`; ISO-8601 strings of a fixed format compare
  lexicographically exactly as their instants compare, so the remote's
  string comparison `gt('updated_at', iso)` is integer `<`.
* The Realm object store is modelled as association lists keyed by `id`
  (Realm enforces primary-key uniqueness); `Realm.UpdateMode.Modified`
  upserts are `upsertById`.
* Each `realm.write` block is a pure state transformation, which models the
  store's transactional atomicity: intermediate states are not observable.
-/

set_option autoImplicit false

namespace PiggyTracker

/-! ## JavaScript numbers and rounding -/

/-- Model of a JavaScript number: a finite double (modelled exactly as a
rational), `NaN`, or one of the infinities. -/
inductive JSNum where
  | val : ℚ → JSNum
  | nan : JSNum
  | posInf : JSNum
  | negInf : JSNum
  deriving DecidableEq, Repr

/-- JS `Math.round`: round half toward positive infinity. -/
def jsRound (q : ℚ) : ℤ := ⌊q + 1/2⌋

/-! ## Amount input normalization (`amountInputSchema`, validation.ts lines 4–19)

The schema accepts a number or a non-empty string.  A string is cleaned by
`value.replace(/[^0-9.,-]/g, '')` — dropping every character that is not a
digit, `.`, `,` or `-` — and then `.replace(',', '.')`, which in JavaScript
replaces only the FIRST occurrence of `,`.  The result goes through
`Number.parseFloat`, then `z.number()` (rejects `NaN`), an `isFinite`
refinement, an `|v| ≥ 0.01` refinement, and finally
`Math.round(Math.abs(v) * 100)`. -/

/-- Input to the amount schema: a JS number or a string. -/
inductive AmountInput where
  | num : JSNum → AmountInput
  | str : String → AmountInput
  deriving DecidableEq, Repr

/-- Model of the cleaning regex `replace(/[^0-9.,-]/g, '')`: keep only
digits, periods, commas and hyphen-minus. -/
def cleanChars (s : String) : List Char :=
  s.data.filter (fun c => c.isDigit || c == '.' || c == ',' || c == '-')

/-- Model of JS `String.prototype.replace(',', '.')`: replace only the first
occurrence of a comma by a period. -/
def replaceFirstComma : List Char → List Char
  | [] => []
  | c :: rest => if c = ',' then '.' :: rest else c :: replaceFirstComma rest

/-- Numeric value of a digit string, most significant digit first. -/
def natOfDigits (ds : List Char) : ℕ :=
  ds.foldl (fun a c => a * 10 + (c.toNat - '0'.toNat)) 0

/-- Consume an optional leading minus sign. -/
def splitSign : List Char → Bool × List Char
  | [] => (false, [])
  | c :: r => if c = '-' then (true, r) else (false, c :: r)

/-- Fraction digits: the digits right after a leading decimal point. -/
def fracPart : List Char → List Char
  | '.' :: r => r.takeWhile Char.isDigit
  | _ => []

/-- Syntactic part of `Number.parseFloat` restricted to the alphabet that
survives `cleanChars` (digits, `.`, `,`, `-`): an optional leading minus
sign, then the longest prefix of the form `digits [ '.' digits ]` or
`'.' digits`.  Returns the sign, integer digits and fraction digits, or
`none` when no digit is consumed (JS `NaN`).  Exponent notation cannot occur
because `e`/`E` are removed by the cleaning step. -/
def parseDecParts (cs : List Char) : Option (Bool × List Char × List Char) :=
  let signSplit := splitSign cs
  let intDs := signSplit.2.takeWhile Char.isDigit
  let rest := signSplit.2.dropWhile Char.isDigit
  let fracDs := fracPart rest
  if intDs.isEmpty && fracDs.isEmpty then none
  else some (signSplit.1, intDs, fracDs)

/-- Numeric value denoted by a sign and decimal digit parts. -/
def decValue (neg : Bool) (intDs fracDs : List Char) : ℚ :=
  let mag : ℚ := (natOfDigits intDs : ℚ) + (natOfDigits fracDs : ℚ) / (10 : ℚ) ^ fracDs.length
  if neg then -mag else mag

/-- Model of `Number.parseFloat` on cleaned input: parse the decimal parts
and take their value; `NaN` when no digit is consumed.  No overflow to
infinity arises in the exact rational model. -/
def parseFloatCleaned (cs : List Char) : JSNum :=
  match parseDecParts cs with
  | none => JSNum.nan
  | some (neg, intDs, fracDs) => JSNum.val (decValue neg intDs fracDs)

/-- The number the amount schema's transform step produces: a numeric input
passes through unchanged; a string input is cleaned, has its first comma
replaced by a period, and is parsed. -/
def parseAmountValue : AmountInput → JSNum
  | .num x => x
  | .str s => parseFloatCleaned (replaceFirstComma (cleanChars s))

/-- Model of `amountInputSchema.parse`: the union gate (`z.number()` rejects
`NaN`; `z.string().min(1)` rejects the empty string), the transform above,
then `z.number()` again, the `isFinite` and `|v| ≥ 0.01` refinements, and the
`Math.round(Math.abs(v) * 100)` transform. -/
def checkParsedAmount : JSNum → Except String ℤ
  | .nan => .error "Amount must be a number"
  | .posInf => .error "Amount must be finite"
  | .negInf => .error "Amount must be finite"
  | .val q =>
    if |q| ≥ (1 : ℚ) / 100 then .ok (jsRound (|q| * 100))
    else .error "Amount must be at least 0.01"

/-- Model of parsing a value with `amountInputSchema`. -/
def validateAmount : AmountInput → Except String ℤ
  | .num .nan => .error "Expected number, received nan"
  | .num x => checkParsedAmount x
  | .str s =>
    if s.length = 0 then .error "String must contain at least 1 character"
    else checkParsedAmount (parseAmountValue (.str s))

/-- Modelled from the spec: the specified amount normalization — parse the
input to a number, reject non-finite values and values with absolute value
below one cent, otherwise produce `round(abs(value) * 100)` cents. -/
def amountSpec (i : AmountInput) : Option ℤ :=
  match parseAmountValue i with
  | .val q => if |q| < (1 : ℚ) / 100 then none else some (jsRound (|q| * 100))
  | _ => none

/-- Vocabulary for the amount round-trip claim: a decimal string with one
separator, `digits sep digits`. -/
def decStr (intDs fracDs : List Char) (sep : Char) : String :=
  String.mk (intDs ++ sep :: fracDs)

/-- Vocabulary for the amount round-trip claim: a plain digit string. -/
def intStr (ds : List Char) : String :=
  String.mk ds

/-- The numeric value such a decimal string denotes. -/
def decStrValue (intDs fracDs : List Char) : ℚ :=
  (natOfDigits intDs : ℚ) + (natOfDigits fracDs : ℚ) / (10 : ℚ) ^ fracDs.length

/-! ## Transaction draft validation (`validateTransactionDraft`, validation.ts lines 38–63) -/

/-- Transaction type enum from realmSchemas.ts. -/
inductive TxType where
  | expense
  | income
  deriving DecidableEq, Repr

/-- Sync status enum from realmSchemas.ts; the source value "local" is the
constructor with an apostrophe because plain local is a Lean keyword. -/
inductive SyncStatus where
  | local'
  | synced
  deriving DecidableEq, Repr

/-- Hexadecimal digit test for the UUID format check. -/
def isHexDigit (c : Char) : Bool :=
  c.isDigit || ('a' ≤ c && c ≤ 'f') || ('A' ≤ c && c ≤ 'F')

/-- Model of the zod `z.string().uuid()` format check: 36 characters in the
8-4-4-4-12 hexadecimal layout with hyphens at positions 8, 13, 18 and 23. -/
def isUuid (s : String) : Bool :=
  let cs := s.data
  cs.length == 36 && (List.range 36).all (fun k =>
    match cs.get? k with
    | none => false
    | some c =>
      if k == 8 || k == 13 || k == 18 || k == 23 then c == '-' else isHexDigit c)

/-- Model of the transaction type schema: exactly "expense" or "income". -/
def parseTxType (s : String) : Option TxType :=
  if s == "expense" then some .expense
  else if s == "income" then some .income
  else none

/-- Input to `validateTransactionDraft`.  The timestamp field models a `Date`
value or an omitted field (defaulted to now); parsing of date strings is not
modelled — an ISO string input stands for its instant. -/
structure DraftInput where
  id : Option String
  type : String
  amount : AmountInput
  categoryId : String
  timestamp : Option ℤ
  deriving Repr

/-- Result type of `validateTransactionDraft` (ValidatedTransactionDraft). -/
structure ValidatedDraft where
  id : Option String
  type : TxType
  amountCents : ℤ
  categoryId : String
  timestamp : ℤ
  deriving DecidableEq, Repr

/-- Model of `validateTransactionDraft`: field checks of
`transactionDraftSchema` (optional UUID id, type enum, amount via
`amountInputSchema`, non-empty categoryId, timestamp defaulted to now),
failing with the first violated field's message. -/
def validateTransactionDraft (tNow : ℤ) (d : DraftInput) : Except String ValidatedDraft :=
  if (match d.id with | some i => isUuid i | none => true) = false then
    .error "Invalid uuid"
  else
    match parseTxType d.type with
    | none => .error "Invalid transaction type"
    | some ty =>
      match validateAmount d.amount with
      | .error e => .error e
      | .ok cents =>
        if d.categoryId.length = 0 then .error "Category is required"
        else .ok { id := d.id, type := ty, amountCents := cents,
                   categoryId := d.categoryId, timestamp := d.timestamp.getD tNow }

/-- All fields of a draft other than the amount pass their checks. -/
def draftFieldsOk (d : DraftInput) : Bool :=
  (match d.id with | some i => isUuid i | none => true)
    && (parseTxType d.type).isSome && !(d.categoryId.length == 0)

/-! ## Local store entities (realmSchemas.ts) and repository (repository.ts)

Realm primary keys are unique, so the store is a list with at most one
record per id; `Realm.UpdateMode.Modified` with all fields supplied is
`upsertById`.  The system clock is passed explicitly as `tNow`. -/

/-- Transaction record of the local store. -/
structure Txn where
  id : String
  type : TxType
  amountCents : ℤ
  categoryId : String
  timestamp : ℤ
  updatedAt : ℤ
  syncStatus : SyncStatus
  deleted : Bool
  deriving DecidableEq, Repr

/-- Category record of the local store. -/
structure Cat where
  id : String
  name : String
  icon : String
  userDefined : Bool
  createdAt : ℤ
  updatedAt : ℤ
  deriving DecidableEq, Repr

/-- Insert-or-replace keyed by a string key, the model of a Realm
`create(..., UpdateMode.Modified)` with every field supplied. -/
def upsertById {α : Type} (key : α → String) (x : α) (l : List α) : List α :=
  if l.any (fun y => key y == key x) then
    l.map (fun y => if key y == key x then x else y)
  else l ++ [x]

/-- TransactionDraft of repository.ts.  The claims under verification always
supply an id, so the generated-UUID branch of `draft.id ?? generateId()` is
not modelled. -/
structure TransactionDraft where
  id : String
  type : TxType
  amountCents : ℤ
  categoryId : String
  timestamp : ℤ
  syncStatus : Option SyncStatus
  deleted : Option Bool
  deriving DecidableEq, Repr

/-- CategoryDraft of repository.ts (id always supplied, as above). -/
structure CategoryDraft where
  id : String
  name : String
  icon : String
  userDefined : Option Bool
  createdAt : Option ℤ
  updatedAt : Option ℤ
  deriving DecidableEq, Repr

/-- Model of `upsertTransaction`: write the record with `updatedAt = now()`,
`syncStatus` defaulted to "local" and `deleted` defaulted to false. -/
def upsertTransaction (tNow : ℤ) (d : TransactionDraft) (txns : List Txn) : List Txn :=
  upsertById (·.id)
    { id := d.id, type := d.type, amountCents := d.amountCents,
      categoryId := d.categoryId, timestamp := d.timestamp, updatedAt := tNow,
      syncStatus := d.syncStatus.getD .local', deleted := d.deleted.getD false }
    txns

/-- Model of `softDeleteTransaction`: if the id is absent return false,
otherwise set `deleted = true`, `updatedAt = now()`, `syncStatus = "local"`. -/
def softDeleteTransaction (tNow : ℤ) (id : String) (txns : List Txn) : Bool × List Txn :=
  match txns.find? (fun t => t.id == id) with
  | none => (false, txns)
  | some _ =>
    (true, txns.map (fun t =>
      if t.id == id then { t with deleted := true, updatedAt := tNow, syncStatus := .local' }
      else t))

/-- Model of `purgeTransaction`: permanently remove the record. -/
def purgeTransaction (id : String) (txns : List Txn) : Bool × List Txn :=
  match txns.find? (fun t => t.id == id) with
  | none => (false, txns)
  | some _ => (true, txns.filter (fun t => !(t.id == id)))

/-- Model of `upsertCategory`: `createdAt` is the existing record's if one
exists with the same id, else the draft's, else now; `updatedAt` is the
draft's or now; `userDefined` defaults to true. -/
def upsertCategory (tNow : ℤ) (d : CategoryDraft) (cats : List Cat) : List Cat :=
  let existing := cats.find? (fun c => c.id == d.id)
  let createdAt := match existing with
    | some ex => ex.createdAt
    | none => d.createdAt.getD tNow
  let updatedAt := d.updatedAt.getD tNow
  upsertById (·.id)
    { id := d.id, name := d.name, icon := d.icon,
      userDefined := d.userDefined.getD true,
      createdAt := createdAt, updatedAt := updatedAt }
    cats

/-- Joint local state used by `deleteCategory`. -/
structure LocalState where
  txns : List Txn
  cats : List Cat
  deriving DecidableEq, Repr

/-- Model of `deleteCategory`: false if the id is absent; otherwise, in one
write transaction, if a reassignment id is given every transaction
referencing the category is repointed at it (with `updatedAt` bumped and
`syncStatus` reset to "local"), and the category record is deleted. -/
def deleteCategory (tNow : ℤ) (id : String) (reassignedCategoryId : Option String)
    (s : LocalState) : Bool × LocalState :=
  match s.cats.find? (fun c => c.id == id) with
  | none => (false, s)
  | some _ =>
    let txns' := match reassignedCategoryId with
      | some r => s.txns.map (fun t =>
          if t.categoryId == id then
            { t with categoryId := r, updatedAt := tNow, syncStatus := .local' }
          else t)
      | none => s.txns
    (true, { txns := txns', cats := s.cats.filter (fun c => !(c.id == id)) })

/-! ## Domain services (services/categories.ts, services/transactions.ts) -/

/-- The six seeded default categories (id, name, icon). -/
def DEFAULT_CATEGORIES : List (String × String × String) :=
  [ ("cat-food", "Food & Drink", "fast-food-outline"),
    ("cat-transport", "Transport", "bus-outline"),
    ("cat-entertainment", "Entertainment", "game-controller-outline"),
    ("cat-school", "School", "book-outline"),
    ("cat-shopping", "Shopping", "cart-outline"),
    ("cat-other", "Other", "apps-outline") ]

/-- One iteration of the seeding loop: create the default category unless a
record with its id already exists. -/
def seedStep (tNow : ℤ) (cats : List Cat) (c : String × String × String) : List Cat :=
  if cats.any (fun e => e.id == c.1) then cats
  else cats ++ [{ id := c.1, name := c.2.1, icon := c.2.2, userDefined := false,
                  createdAt := tNow, updatedAt := tNow }]

/-- Model of the seeding effect in `useCategoriesService`: one write
transaction that inserts each default category guarded by a per-id
existence check. -/
def seedDefaults (tNow : ℤ) (cats : List Cat) : List Cat :=
  DEFAULT_CATEGORIES.foldl (seedStep tNow) cats

/-- Model of the category service's `removeCategory`: it delegates directly
to the repository's `deleteCategory`. -/
def removeCategory (tNow : ℤ) (id : String) (replacementId : Option String)
    (s : LocalState) : Bool × LocalState :=
  deleteCategory tNow id replacementId s

/-- Model of `getTransactionCount`: active transactions referencing the
category. -/
def getTransactionCount (categoryId : String) (txns : List Txn) : ℕ :=
  (txns.filter (fun t => t.categoryId == categoryId && t.deleted == false)).length

/-- Model of the live view `activeTransactions`: transactions with
`deleted == false`. -/
def activeTransactions (txns : List Txn) : List Txn :=
  txns.filter (fun t => t.deleted == false)

/-- Model of `totalIncomeCents` over a supplied collection: the sum of
`amountCents` over records with type "income". -/
def totalIncomeCents (source : List Txn) : ℤ :=
  ((source.filter (fun t => t.type == .income)).map (·.amountCents)).sum

/-- Model of `totalExpenseCents` over a supplied collection. -/
def totalExpenseCents (source : List Txn) : ℤ :=
  ((source.filter (fun t => t.type == .expense)).map (·.amountCents)).sum

/-- Model of `remainingBalanceCents`: income minus expenses over the same
collection. -/
def remainingBalanceCents (source : List Txn) : ℤ :=
  totalIncomeCents source - totalExpenseCents source

/-- Model of `getTransactionById` (`objectForPrimaryKey`). -/
def getTransactionById (txns : List Txn) (id : String) : Option Txn :=
  txns.find? (fun t => t.id == id)

/-! ## Maintenance job (services/maintenance.ts)

Timestamps are in days here, matching the `setDate`-based retention
threshold arithmetic of the source. -/

/-- Feature flags for maintenance operations (MAINTENANCE_CONFIG). -/
structure MaintenanceConfig where
  enableTombstonePurge : Bool
  tombstoneRetentionDays : ℤ
  purgeBatchSize : ℕ
  purgeIntervalDays : ℤ
  deriving DecidableEq, Repr

/-- The shipped configuration: purge disabled, 90-day retention, batch 100. -/
def MAINTENANCE_CONFIG : MaintenanceConfig :=
  { enableTombstonePurge := false, tombstoneRetentionDays := 90,
    purgeBatchSize := 100, purgeIntervalDays := 7 }

/-- Model of `isTombstoneEligibleForPurge`: deleted, synced, and updated
before `now - retentionDays`. -/
def isTombstoneEligibleForPurge (tNow retentionDays : ℤ) (t : Txn) : Bool :=
  if t.deleted = false then false
  else if t.syncStatus ≠ SyncStatus.synced then false
  else decide (t.updatedAt < tNow - retentionDays)

/-- Model of `purgeOldTombstones`: return 0 and change nothing when the
feature flag is off; otherwise collect eligible synced tombstones up to the
batch size and delete them in one write transaction, returning the count. -/
def purgeOldTombstones (cfg : MaintenanceConfig) (tNow : ℤ) (txns : List Txn) :
    ℕ × List Txn :=
  if cfg.enableTombstonePurge = false then (0, txns)
  else
    let deletedTxns := txns.filter (fun t => t.deleted && t.syncStatus == .synced)
    let toPurge :=
      (deletedTxns.filter (isTombstoneEligibleForPurge tNow cfg.tombstoneRetentionDays)).take
        cfg.purgeBatchSize
    (toPurge.length, txns.filter (fun t => !(toPurge.any (fun p => p.id == t.id))))

/-! ## Sync engine (services/supabaseSync.ts)

Remote rows, the constructed select queries, and the four phases.  The
authenticated user and the error outcome of each remote call are part of a
static environment `SyncEnv`; the local store, the remote tables and an
execution trace (which phase functions have been entered, in order) form the
`SyncWorld`.  Each phase is total, modelling that every failure is caught
and converted to a `SyncResult` rather than thrown. -/

/-- Remote transactions table row. -/
structure RemoteTxnRow where
  id : String
  user_id : String
  type : TxType
  amount_cents : ℤ
  category_id : String
  timestamp : ℤ
  deleted_at : Option ℤ
  updated_at : ℤ
  deriving DecidableEq, Repr

/-- Remote categories table row. -/
structure RemoteCatRow where
  id : String
  user_id : String
  name : String
  icon : String
  deleted_at : Option ℤ
  created_at : ℤ
  updated_at : ℤ
  deriving DecidableEq, Repr

/-- Result object `{ success, error? }` of every sync entry point. -/
structure SyncResult where
  success : Bool
  error : Option String
  deriving DecidableEq, Repr

/-- The four phases of a sync cycle, in the order syncAll runs them. -/
inductive Phase where
  | pullCats
  | pullTxns
  | pushCats
  | pushTxns
  deriving DecidableEq, Repr

/-- Static environment of one sync cycle: the authenticated user (none when
not authenticated) and the error outcome each remote call would report, plus
the clock. -/
structure SyncEnv where
  user : Option String
  pullTxnError : Option String
  pullCatError : Option String
  pushTxnError : Option String
  pushCatError : Option String
  tNow : ℤ
  deriving Repr

/-- Mutable world of a sync cycle: the local store, the remote tables, and
the trace of phase entries. -/
structure SyncWorld where
  localTxns : List Txn
  localCats : List Cat
  remoteTxns : List RemoteTxnRow
  remoteCats : List RemoteCatRow
  trace : List Phase
  deriving Repr

/-- The select query `pullTransactions` constructs:
`eq('user_id', u)` plus, when `since` is supplied, `gt('updated_at', since)`. -/
structure TxnQuery where
  userId : String
  updatedAtGt : Option ℤ
  deriving DecidableEq, Repr

/-- Model of building the transactions select query. -/
def buildTxnQuery (u : String) (since : Option ℤ) : TxnQuery :=
  { userId := u, updatedAtGt := since }

/-- One row matches the query's filters. -/
def matchesTxnQuery (q : TxnQuery) (r : RemoteTxnRow) : Bool :=
  r.user_id == q.userId &&
    (match q.updatedAtGt with
     | some t => decide (t < r.updated_at)
     | none => true)

/-- The rows the remote returns for the query. -/
def runTxnQuery (q : TxnQuery) (rows : List RemoteTxnRow) : List RemoteTxnRow :=
  rows.filter (matchesTxnQuery q)

/-- The local draft `pullTransactions` builds from a received remote row:
`syncStatus = "synced"` and `deleted = (deleted_at != null)`. -/
def rowToTxnDraft (r : RemoteTxnRow) : TransactionDraft :=
  { id := r.id, type := r.type, amountCents := r.amount_cents,
    categoryId := r.category_id, timestamp := r.timestamp,
    syncStatus := some .synced, deleted := some r.deleted_at.isSome }

/-- Model of `pullTransactions`: authentication gate, remote select (all of
the user's rows, or only those with `updated_at > since`), then an upsert of
every received row into the local store. -/
def pullTransactions (env : SyncEnv) (since : Option ℤ) (w : SyncWorld) :
    SyncResult × SyncWorld :=
  let w := { w with trace := w.trace ++ [Phase.pullTxns] }
  match env.user with
  | none => ({ success := false, error := some "Not authenticated" }, w)
  | some u =>
    match env.pullTxnError with
    | some e => ({ success := false, error := some e }, w)
    | none =>
      let rows := runTxnQuery (buildTxnQuery u since) w.remoteTxns
      let txns' := rows.foldl
        (fun acc r => upsertTransaction env.tNow (rowToTxnDraft r) acc) w.localTxns
      ({ success := true, error := none }, { w with localTxns := txns' })

/-- The local draft `pullCategories` builds from a received remote row:
`userDefined` forced true, `createdAt`/`updatedAt` from the remote record. -/
def rowToCatDraft (r : RemoteCatRow) : CategoryDraft :=
  { id := r.id, name := r.name, icon := r.icon, userDefined := some true,
    createdAt := some r.created_at, updatedAt := some r.updated_at }

/-- Model of `pullCategories`: authentication gate, select of the user's
non-soft-deleted rows (`eq user_id`, `is deleted_at null`), then an upsert
of every received row into the local store. -/
def pullCategories (env : SyncEnv) (w : SyncWorld) : SyncResult × SyncWorld :=
  let w := { w with trace := w.trace ++ [Phase.pullCats] }
  match env.user with
  | none => ({ success := false, error := some "Not authenticated" }, w)
  | some u =>
    match env.pullCatError with
    | some e => ({ success := false, error := some e }, w)
    | none =>
      let rows := w.remoteCats.filter (fun r => r.user_id == u && r.deleted_at.isNone)
      let cats' := rows.foldl
        (fun acc r => upsertCategory env.tNow (rowToCatDraft r) acc) w.localCats
      ({ success := true, error := none }, { w with localCats := cats' })

/-- Event type of a realtime change notification. -/
inductive RealtimeEvent where
  | insert
  | update
  | delete
  deriving DecidableEq, Repr

/-- Model of the realtime category-change handler in `setupRealtimeSync`:
on an INSERT or UPDATE event it builds the same draft as the pull phase
(`userDefined` forced true, `createdAt`/`updatedAt` from the remote record)
and applies it through the same `upsertCategory` path; other events are
ignored. -/
def applyRealtimeCategory (tNow : ℤ) (evt : RealtimeEvent) (r : RemoteCatRow)
    (cats : List Cat) : List Cat :=
  if evt = .insert ∨ evt = .update then
    upsertCategory tNow (rowToCatDraft r) cats
  else cats

/-- The remote row `pushTransactions` builds from a local transaction: a
tombstone carries `deleted_at = now`. -/
def txnToRow (u : String) (tNow : ℤ) (t : Txn) : RemoteTxnRow :=
  { id := t.id, user_id := u, type := t.type, amount_cents := t.amountCents,
    category_id := t.categoryId, timestamp := t.timestamp,
    deleted_at := if t.deleted then some tNow else none,
    updated_at := t.updatedAt }

/-- Model of `pushTransactions`: authentication gate, then one upsert of
every local transaction to the remote, keyed by id. -/
def pushTransactions (env : SyncEnv) (w : SyncWorld) : SyncResult × SyncWorld :=
  let w := { w with trace := w.trace ++ [Phase.pushTxns] }
  match env.user with
  | none => ({ success := false, error := some "Not authenticated" }, w)
  | some u =>
    match env.pushTxnError with
    | some e => ({ success := false, error := some e }, w)
    | none =>
      let rows' := w.localTxns.foldl
        (fun acc t => upsertById (·.id) (txnToRow u env.tNow t) acc) w.remoteTxns
      ({ success := true, error := none }, { w with remoteTxns := rows' })

/-- Remote-side upsert of a pushed category row: the push payload carries no
`created_at`, so an update keeps the stored `created_at` and an insert uses
the database default (now). -/
def pushCatIntoRemote (u : String) (tNow : ℤ) (c : Cat) (rows : List RemoteCatRow) :
    List RemoteCatRow :=
  if rows.any (fun r => r.id == c.id) then
    rows.map (fun r =>
      if r.id == c.id then
        { r with user_id := u, name := c.name, icon := c.icon,
                 deleted_at := none, updated_at := c.updatedAt }
      else r)
  else
    rows ++ [{ id := c.id, user_id := u, name := c.name, icon := c.icon,
               deleted_at := none, created_at := tNow, updated_at := c.updatedAt }]

/-- Model of `pushCategories`: authentication gate, then one upsert of every
locally user-defined category to the remote; when there is nothing to push
the remote call is skipped and the phase succeeds. -/
def pushCategories (env : SyncEnv) (w : SyncWorld) : SyncResult × SyncWorld :=
  let w := { w with trace := w.trace ++ [Phase.pushCats] }
  match env.user with
  | none => ({ success := false, error := some "Not authenticated" }, w)
  | some u =>
    let localCats := w.localCats.filter (·.userDefined)
    if localCats.isEmpty then ({ success := true, error := none }, w)
    else
      match env.pushCatError with
      | some e => ({ success := false, error := some e }, w)
      | none =>
        let rows' := localCats.foldl
          (fun acc c => pushCatIntoRemote u env.tNow c acc) w.remoteCats
        ({ success := true, error := none }, { w with remoteCats := rows' })

/-- The incremental-pull cutoff `syncAll` computes:
`!isInitialSync && lastSyncAt ? lastSyncAt : undefined`. -/
def syncSince (isInitialSync : Bool) (lastSyncAt : Option ℤ) : Option ℤ :=
  if isInitialSync then none else lastSyncAt

/-- Model of `syncAll`: pull categories, pull transactions (incremental when
a cutoff exists), push categories, push transactions — each phase only after
the previous succeeded, returning the first failing phase's result. -/
def syncAll (env : SyncEnv) (isInitialSync : Bool) (lastSyncAt : Option ℤ)
    (w : SyncWorld) : SyncResult × SyncWorld :=
  let since := syncSince isInitialSync lastSyncAt
  let r1 := pullCategories env w
  if r1.1.success = false then r1
  else
    let r2 := pullTransactions env since r1.2
    if r2.1.success = false then r2
    else
      let r3 := pushCategories env r2.2
      if r3.1.success = false then r3
      else pushTransactions env r3.2

/-! ## Concrete instances used in witnesses and counterexamples -/

/-- A store with one category "c" referenced by one transaction, plus a
candidate replacement category "r". -/
def refState : LocalState :=
  { txns := [{ id := "t1", type := .expense, amountCents := 100, categoryId := "c",
               timestamp := 1, updatedAt := 1, syncStatus := .local', deleted := false }],
    cats := [{ id := "c", name := "C", icon := "i", userDefined := true,
               createdAt := 0, updatedAt := 0 },
             { id := "r", name := "R", icon := "j", userDefined := true,
               createdAt := 0, updatedAt := 0 }] }

/-- A sync environment with an authenticated user and no remote errors. -/
def okEnv : SyncEnv :=
  { user := some "u", pullTxnError := none, pullCatError := none,
    pushTxnError := none, pushCatError := none, tNow := 100 }

/-- A world where the local store already holds category "c" (createdAt 5)
and the remote holds a newer row for the same id (created_at 7). -/
def catConflictWorld : SyncWorld :=
  { localTxns := [],
    localCats := [{ id := "c", name := "Old", icon := "i", userDefined := false,
                    createdAt := 5, updatedAt := 6 }],
    remoteTxns := [],
    remoteCats := [{ id := "c", user_id := "u", name := "New", icon := "j",
                     deleted_at := none, created_at := 7, updated_at := 8 }],
    trace := [] }

/-- A sync environment whose pull-transactions select fails. -/
def pullTxnFailEnv : SyncEnv :=
  { user := some "u", pullTxnError := some "boom", pullCatError := none,
    pushTxnError := none, pushCatError := none, tNow := 100 }

/-- An empty sync world. -/
def emptyWorld : SyncWorld :=
  { localTxns := [], localCats := [], remoteTxns := [], remoteCats := [], trace := [] }

/-- A remote holding two transaction rows for user "u", one old (updated_at
3) and one new (updated_at 10), the old one soft-deleted remotely. -/
def pullWorld : SyncWorld :=
  { localTxns := [],
    localCats := [],
    remoteTxns := [{ id := "a", user_id := "u", type := .expense, amount_cents := 5,
                     category_id := "c", timestamp := 1, deleted_at := some 2,
                     updated_at := 3 },
                   { id := "b", user_id := "u", type := .income, amount_cents := 7,
                     category_id := "c", timestamp := 9, deleted_at := none,
                     updated_at := 10 }],
    remoteCats := [],
    trace := [] }

/-! ## Shared helper lemmas -/

theorem checkParsedAmount_toOption (x : JSNum) :
    (checkParsedAmount x).toOption =
      (match x with
       | .val q => if |q| < (1 : ℚ) / 100 then none else some (jsRound (|q| * 100))
       | _ => none) := by
  cases x with
  | val q =>
    simp only [checkParsedAmount]
    by_cases h : (1 : ℚ) / 100 ≤ |q|
    · rw [if_pos h, if_neg (not_lt.mpr h)]; rfl
    · rw [if_neg h, if_pos (not_le.mp h)]; rfl
  | nan => rfl
  | posInf => rfl
  | negInf => rfl

theorem parseDecParts_nil : parseDecParts [] = none := rfl

theorem validateAmount_toOption (i : AmountInput) :
    (validateAmount i).toOption = amountSpec i := by
  cases i with
  | num x =>
    cases x with
    | val q => exact (checkParsedAmount_toOption (.val q)).trans rfl
    | nan => rfl
    | posInf => rfl
    | negInf => rfl
  | str s =>
    by_cases h0 : s.length = 0
    · have hs : s.data = [] := List.length_eq_zero.mp ((String.length_data s).trans h0)
      have hparse : parseAmountValue (.str s) = JSNum.nan := by
        have hclean : cleanChars s = [] := by simp [cleanChars, hs]
        simp only [parseAmountValue, hclean]
        rfl
      simp only [validateAmount, if_pos h0, amountSpec, hparse]
      rfl
    · simp only [validateAmount, if_neg h0]
      exact (checkParsedAmount_toOption (parseAmountValue (.str s))).trans rfl

theorem validateTransactionDraft_amountCents (tNow : ℤ) (d : DraftInput)
    (h : draftFieldsOk d = true) :
    (validateTransactionDraft tNow d).toOption.map (·.amountCents) =
      (validateAmount d.amount).toOption := by
  simp only [draftFieldsOk, Bool.and_eq_true] at h
  obtain ⟨⟨h1, h2⟩, h3⟩ := h
  simp only [validateTransactionDraft]
  rw [if_neg (by simp [h1])]
  obtain ⟨ty, hty⟩ := Option.isSome_iff_exists.mp h2
  rw [hty]
  cases hv : validateAmount d.amount with
  | error e => rfl
  | ok cents =>
    have hc : ¬ d.categoryId.length = 0 := by simpa using h3
    simp [hc, Except.toOption]

theorem takeWhile_of_all {p : Char → Bool} {l : List Char} (h : ∀ c ∈ l, p c) :
    l.takeWhile p = l := by
  induction l with
  | nil => rfl
  | cons c l ih =>
    rw [List.takeWhile_cons, if_pos (h c (by simp)), ih (fun x hx => h x (by simp [hx]))]

theorem dropWhile_of_all {p : Char → Bool} {l : List Char} (h : ∀ c ∈ l, p c) :
    l.dropWhile p = [] := by
  induction l with
  | nil => rfl
  | cons c l ih =>
    rw [List.dropWhile_cons, if_pos (h c (by simp))]
    exact ih (fun x hx => h x (by simp [hx]))

theorem takeWhile_append_stop {p : Char → Bool} {l1 l2 : List Char} {x : Char}
    (h : ∀ c ∈ l1, p c) (hx : p x = false) :
    (l1 ++ x :: l2).takeWhile p = l1 := by
  induction l1 with
  | nil => simp [List.takeWhile_cons, hx]
  | cons c l ih =>
    rw [List.cons_append, List.takeWhile_cons, if_pos (h c (by simp)),
      ih (fun y hy => h y (by simp [hy]))]

theorem dropWhile_append_stop {p : Char → Bool} {l1 l2 : List Char} {x : Char}
    (h : ∀ c ∈ l1, p c) (hx : p x = false) :
    (l1 ++ x :: l2).dropWhile p = x :: l2 := by
  induction l1 with
  | nil => simp [List.dropWhile_cons, hx]
  | cons c l ih =>
    rw [List.cons_append, List.dropWhile_cons, if_pos (h c (by simp))]
    exact ih (fun y hy => h y (by simp [hy]))

theorem replaceFirstComma_of_not_mem {l : List Char} (h : ',' ∉ l) :
    replaceFirstComma l = l := by
  induction l with
  | nil => rfl
  | cons c l ih =>
    have hc : ¬ c = ',' := fun e => h (by simp [e])
    rw [replaceFirstComma, if_neg hc, ih (fun e => h (by simp [e]))]

theorem replaceFirstComma_append {l1 l2 : List Char} (h : ',' ∉ l1) :
    replaceFirstComma (l1 ++ ',' :: l2) = l1 ++ '.' :: l2 := by
  induction l1 with
  | nil => simp [replaceFirstComma]
  | cons c l ih =>
    have hc : ¬ c = ',' := fun e => h (by simp [e])
    rw [List.cons_append, replaceFirstComma, if_neg hc, ih (fun e => h (by simp [e])),
      List.cons_append]

theorem digit_ne_comma {c : Char} (h : c.isDigit = true) : c ≠ ',' := by
  intro e; subst e; exact absurd h (by decide)

theorem digit_ne_dot {c : Char} (h : c.isDigit = true) : c ≠ '.' := by
  intro e; subst e; exact absurd h (by decide)

theorem digit_ne_minus {c : Char} (h : c.isDigit = true) : c ≠ '-' := by
  intro e; subst e; exact absurd h (by decide)

theorem parseDecParts_canonical (intDs fracDs : List Char)
    (hi : ∀ c ∈ intDs, c.isDigit) (hf : ∀ c ∈ fracDs, c.isDigit)
    (hne : intDs ≠ [] ∨ fracDs ≠ []) :
    parseDecParts (intDs ++ '.' :: fracDs) = some (false, intDs, fracDs) := by
  have hsign : splitSign (intDs ++ '.' :: fracDs) = (false, intDs ++ '.' :: fracDs) := by
    cases intDs with
    | nil => rfl
    | cons c r =>
      rw [List.cons_append, splitSign, if_neg (digit_ne_minus (hi c (by simp)))]
  have hemp : (intDs.isEmpty && (fracDs.takeWhile Char.isDigit).isEmpty) = false := by
    rcases hne with h | h
    · cases intDs with
      | nil => exact absurd rfl h
      | cons a l => rfl
    · cases fracDs with
      | nil => exact absurd rfl h
      | cons a l =>
        rw [List.takeWhile_cons, if_pos (hf a (by simp))]
        simp
  simp only [parseDecParts, hsign,
    takeWhile_append_stop hi (show ('.' : Char).isDigit = false by decide),
    dropWhile_append_stop hi (show ('.' : Char).isDigit = false by decide),
    fracPart, takeWhile_of_all hf]
  rw [takeWhile_of_all hf] at hemp
  simp only [hemp, Bool.false_eq_true, if_false]

theorem parseDecParts_digits (ds : List Char)
    (hd : ∀ c ∈ ds, c.isDigit) (hne : ds ≠ []) :
    parseDecParts ds = some (false, ds, []) := by
  have hsign : splitSign ds = (false, ds) := by
    cases ds with
    | nil => rfl
    | cons c r => rw [splitSign, if_neg (digit_ne_minus (hd c (by simp)))]
  have hemp : ds.isEmpty = false := by
    cases ds with
    | nil => exact absurd rfl hne
    | cons a l => rfl
  simp only [parseDecParts, hsign, takeWhile_of_all hd, dropWhile_of_all hd, fracPart,
    hemp, Bool.false_and, Bool.false_eq_true, if_false]

theorem decStrValue_nonneg (intDs fracDs : List Char) : 0 ≤ decStrValue intDs fracDs := by
  have h1 : (0 : ℚ) ≤ (natOfDigits intDs : ℚ) := Nat.cast_nonneg _
  have h2 : (0 : ℚ) ≤ (natOfDigits fracDs : ℚ) / (10 : ℚ) ^ fracDs.length :=
    div_nonneg (Nat.cast_nonneg _) (by positivity)
  exact add_nonneg h1 h2

theorem parseAmountValue_decStr (intDs fracDs : List Char) (sep : Char)
    (hi : ∀ c ∈ intDs, c.isDigit) (hf : ∀ c ∈ fracDs, c.isDigit)
    (hsep : sep = '.' ∨ sep = ',') (hne : intDs ≠ [] ∨ fracDs ≠ []) :
    parseAmountValue (.str (decStr intDs fracDs sep)) =
      JSNum.val (decStrValue intDs fracDs) := by
  have hclean : cleanChars (decStr intDs fracDs sep) = intDs ++ sep :: fracDs := by
    apply List.filter_eq_self.mpr
    intro a ha
    rcases List.mem_append.mp ha with h | h
    · simp [hi a h]
    · rcases List.mem_cons.mp h with rfl | h
      · rcases hsep with rfl | rfl <;> rfl
      · simp [hf a h]
  have hrep : replaceFirstComma (intDs ++ sep :: fracDs) = intDs ++ '.' :: fracDs := by
    rcases hsep with rfl | rfl
    · apply replaceFirstComma_of_not_mem
      intro hmem
      rcases List.mem_append.mp hmem with h | h
      · exact digit_ne_comma (hi _ h) rfl
      · rcases List.mem_cons.mp h with h | h
        · exact absurd h (by decide)
        · exact digit_ne_comma (hf _ h) rfl
    · apply replaceFirstComma_append
      intro hmem
      exact digit_ne_comma (hi _ hmem) rfl
  simp only [parseAmountValue, hclean, hrep, parseFloatCleaned,
    parseDecParts_canonical intDs fracDs hi hf hne]
  rfl

theorem parseAmountValue_intStr (ds : List Char)
    (hd : ∀ c ∈ ds, c.isDigit) (hne : ds ≠ []) :
    parseAmountValue (.str (intStr ds)) = JSNum.val ((natOfDigits ds : ℚ)) := by
  have hclean : cleanChars (intStr ds) = ds := by
    apply List.filter_eq_self.mpr
    intro a ha
    simp [hd a ha]
  have hrep : replaceFirstComma ds = ds := by
    apply replaceFirstComma_of_not_mem
    intro hmem
    exact digit_ne_comma (hd _ hmem) rfl
  simp only [parseAmountValue, hclean, hrep, parseFloatCleaned, parseDecParts_digits ds hd hne]
  simp [decValue, natOfDigits]

theorem validateAmount_of_parse_val {s : String} {v : ℚ}
    (hp : parseAmountValue (.str s) = JSNum.val v) (hv : 0 ≤ v) :
    (validateAmount (.str s)).toOption =
      if v < 1/100 then none else some (jsRound (v * 100)) := by
  rw [validateAmount_toOption]
  simp only [amountSpec, hp, abs_of_nonneg hv]

/-! ## Claim C3 -/

/-- C3: for every input to `validateTransactionDraft` the amount is parsed to
a number and the draft is rejected with a validation error when that number
is not finite or its absolute value is below 0.01; otherwise
`amountCents = round(abs(value) * 100)`, discarding the sign.  In particular
0.01 passes and yields `amountCents = 1`, while 0, 0.004 and "abc" fail. -/
theorem validateTransactionDraft_amount_normalization :
    (∀ (tNow : ℤ) (d : DraftInput), draftFieldsOk d = true →
      (validateTransactionDraft tNow d).toOption.map (·.amountCents) = amountSpec d.amount) ∧
    (∀ i : AmountInput, (validateAmount i).toOption = amountSpec i) ∧
    validateAmount (.num (.val (1/100))) = .ok 1 ∧
    validateAmount (.num (.val 0)) = .error "Amount must be at least 0.01" ∧
    validateAmount (.num (.val (1/250))) = .error "Amount must be at least 0.01" ∧
    validateAmount (.str "abc") = .error "Amount must be a number" := by
  refine ⟨?_, validateAmount_toOption, ?_, ?_, ?_, ?_⟩
  · intro tNow d h
    simp only [draftFieldsOk, Bool.and_eq_true] at h
    obtain ⟨⟨h1, h2⟩, h3⟩ := h
    simp only [validateTransactionDraft]
    rw [if_neg (by simp [h1])]
    obtain ⟨ty, hty⟩ := Option.isSome_iff_exists.mp h2
    rw [hty]
    cases hv : validateAmount d.amount with
    | error e =>
      rw [← validateAmount_toOption, hv]
      rfl
    | ok cents =>
      have hc : ¬ d.categoryId.length = 0 := by simpa using h3
      rw [← validateAmount_toOption, hv]
      simp [hc, Except.toOption]
  · norm_num [validateAmount, checkParsedAmount, jsRound,
      abs_of_nonneg (show (0:ℚ) ≤ 1/100 by norm_num)]
  · norm_num [validateAmount, checkParsedAmount]
  · norm_num [validateAmount, checkParsedAmount,
      abs_of_nonneg (show (0:ℚ) ≤ 1/250 by norm_num)]
  · have h : parseDecParts (replaceFirstComma (cleanChars "abc")) = none := by decide
    simp +decide [validateAmount, parseAmountValue, parseFloatCleaned, h, checkParsedAmount]

/-- Witness for C3: the general amount-normalization statement applied to a
concrete draft whose non-amount fields all pass their checks. -/
theorem validateTransactionDraft_amount_normalization_witness :
    (validateTransactionDraft 0
      { id := none, type := "income", amount := .num (.val 5), categoryId := "c",
        timestamp := none }).toOption.map (·.amountCents) =
      amountSpec (.num (.val 5)) :=
  validateTransactionDraft_amount_normalization.1 0
    { id := none, type := "income", amount := .num (.val 5), categoryId := "c",
      timestamp := none } (by decide)

/-! ## Claim C4 -/

/-- C4 counterexample: the claimed cleaning of thousands separators does not
happen — the code replaces only the FIRST comma with a period, so the valid
decimal string "1,000" (denoting one thousand) parses as 1.0 and yields
`amountCents = 100`, not `round(1000 * 100) = 100000`. -/
theorem thousands_separators_not_cleaned :
    (validateTransactionDraft 0
      { id := none, type := "expense", amount := .str "1,000", categoryId := "c",
        timestamp := none }).toOption.map (·.amountCents) = some 100 ∧
    jsRound ((1000 : ℚ) * 100) = 100000 ∧ (100 : ℤ) ≠ 100000 := by
  refine ⟨?_, ?_, by decide⟩
  · rw [validateTransactionDraft_amountCents 0 _ (by decide)]
    have h : parseDecParts (replaceFirstComma (cleanChars "1,000")) =
        some (false, ['1'], ['0','0','0']) := by decide
    have h1 : natOfDigits ['1'] = 1 := by decide
    have h2 : natOfDigits ['0','0','0'] = 0 := by decide
    have hv : validateAmount (.str "1,000") = .ok 100 := by
      norm_num +decide [validateAmount, parseAmountValue, parseFloatCleaned, h,
        checkParsedAmount, decValue, h1, h2, jsRound]
    rw [hv]
    rfl
  · norm_num [jsRound]

/-- C4 (amended): for every valid decimal string WITHOUT thousands
separators — digits with at most one decimal separator, which may be a
period or a comma — validation yields `round(value * 100)` cents (rejecting
values below one cent), and the draft's `amountCents` is exactly the amount
schema's result; strings with thousands-separator commas are not cleaned
(only the first comma becomes a decimal point), as the counterexample
shows. -/
theorem decimal_string_round_trip :
    (∀ (intDs fracDs : List Char) (sep : Char),
      (∀ c ∈ intDs, c.isDigit) → (∀ c ∈ fracDs, c.isDigit) →
      (sep = '.' ∨ sep = ',') → (intDs ≠ [] ∨ fracDs ≠ []) →
      (validateAmount (.str (decStr intDs fracDs sep))).toOption =
        if decStrValue intDs fracDs < 1/100 then none
        else some (jsRound (decStrValue intDs fracDs * 100))) ∧
    (∀ ds : List Char, (∀ c ∈ ds, c.isDigit) → ds ≠ [] →
      (validateAmount (.str (intStr ds))).toOption =
        if (natOfDigits ds : ℚ) < 1/100 then none
        else some (jsRound ((natOfDigits ds : ℚ) * 100))) ∧
    (∀ (tNow : ℤ) (d : DraftInput), draftFieldsOk d = true →
      (validateTransactionDraft tNow d).toOption.map (·.amountCents) =
        (validateAmount d.amount).toOption) := by
  refine ⟨?_, ?_, validateTransactionDraft_amountCents⟩
  · intro intDs fracDs sep hi hf hsep hne
    exact validateAmount_of_parse_val (parseAmountValue_decStr _ _ _ hi hf hsep hne)
      (decStrValue_nonneg _ _)
  · intro ds hd hne
    exact validateAmount_of_parse_val (parseAmountValue_intStr _ hd hne) (Nat.cast_nonneg _)

/-- Witness for C4 (amended): the decimal-comma string "12,50" normalizes to
12.50 and validates to 1250 cents. -/
theorem decimal_string_round_trip_witness :
    (validateAmount (.str (decStr ['1','2'] ['5','0'] ','))).toOption = some 1250 := by
  have h := decimal_string_round_trip.1 ['1','2'] ['5','0'] ','
    (by decide) (by decide) (Or.inr rfl) (Or.inl (by decide))
  rw [h]
  have h1 : natOfDigits ['1','2'] = 12 := by decide
  have h2 : natOfDigits ['5','0'] = 50 := by decide
  norm_num [decStrValue, h1, h2, jsRound]

/-! ## Seeding lemmas (claim C9) -/

theorem seedStep_any_self (t : ℤ) (acc : List Cat) (c : String × String × String) :
    ((seedStep t acc c).any (fun e => e.id == c.1)) = true := by
  by_cases h : acc.any (fun e => e.id == c.1) = true
  · rw [seedStep, if_pos h]; exact h
  · rw [seedStep, if_neg h]; simp

theorem seedStep_any_mono {acc : List Cat} {f : Cat → Bool} (t : ℤ)
    (h : acc.any f = true) (c : String × String × String) :
    ((seedStep t acc c).any f) = true := by
  by_cases hc : acc.any (fun e => e.id == c.1) = true
  · rw [seedStep, if_pos hc]; exact h
  · rw [seedStep, if_neg hc]; simp [List.any_append, h]

theorem foldl_seedStep_preserves_any (t : ℤ) (l : List (String × String × String))
    {f : Cat → Bool} :
    ∀ cats : List Cat, cats.any f = true → ((l.foldl (seedStep t) cats).any f) = true := by
  induction l with
  | nil => exact fun cats h => h
  | cons a l ih =>
    intro cats h
    exact ih (seedStep t cats a) (seedStep_any_mono t h a)

theorem foldl_seedStep_any (t : ℤ) (l : List (String × String × String))
    (c : String × String × String) (hc : c ∈ l) :
    ∀ cats : List Cat, ((l.foldl (seedStep t) cats).any (fun e => e.id == c.1)) = true := by
  induction l with
  | nil => cases hc
  | cons a l ih =>
    intro cats
    rcases List.mem_cons.mp hc with rfl | h
    · exact foldl_seedStep_preserves_any t l _ (seedStep_any_self t cats c)
    · exact ih h (seedStep t cats a)

theorem seedStep_of_any (t : ℤ) (acc : List Cat) (c : String × String × String)
    (h : acc.any (fun e => e.id == c.1) = true) : seedStep t acc c = acc := by
  rw [seedStep, if_pos h]

theorem foldl_seedStep_fixed (t : ℤ) (l : List (String × String × String))
    (s : List Cat) (hall : ∀ c ∈ l, s.any (fun e => e.id == c.1) = true) :
    l.foldl (seedStep t) s = s := by
  induction l with
  | nil => rfl
  | cons a l ih =>
    rw [List.foldl_cons, seedStep_of_any t s a (hall a (by simp))]
    exact ih (fun c hc => hall c (by simp [hc]))

/-! ## Soft-delete lemmas (claim C10) -/

/-- The update `softDeleteTransaction` applies to the found record. -/
def markDeleted (tNow : ℤ) (id : String) (t : Txn) : Txn :=
  if t.id == id then { t with deleted := true, updatedAt := tNow, syncStatus := .local' }
  else t

theorem softDelete_snd (tNow : ℤ) (id : String) (txns : List Txn) :
    (softDeleteTransaction tNow id txns).2 =
      (if (txns.find? (fun t => t.id == id)).isSome then txns.map (markDeleted tNow id)
       else txns) := by
  rw [softDeleteTransaction]
  cases h : txns.find? (fun t => t.id == id) <;> simp [h, markDeleted]

theorem activeTransactions_map_markDeleted (tNow : ℤ) (id : String) (txns : List Txn) :
    activeTransactions (txns.map (markDeleted tNow id)) =
      (activeTransactions txns).filter (fun t => !(t.id == id)) := by
  simp only [activeTransactions]
  induction txns with
  | nil => rfl
  | cons t l ih =>
    rw [List.map_cons, List.filter_cons, List.filter_cons]
    by_cases hid : (t.id == id) = true
    · have h1 : markDeleted tNow id t =
          { t with deleted := true, updatedAt := tNow, syncStatus := .local' } := by
        rw [markDeleted, if_pos hid]
      by_cases hdel : t.deleted = true <;> simp_all [h1, List.filter_cons]
    · have h1 : markDeleted tNow id t = t := by rw [markDeleted, if_neg hid]
      by_cases hdel : t.deleted = true <;> simp_all [h1, List.filter_cons]

theorem find?_map_markDeleted (tNow : ℤ) (id : String) (txns : List Txn) :
    (txns.map (markDeleted tNow id)).find? (fun t => t.id == id) =
      (txns.find? (fun t => t.id == id)).map (markDeleted tNow id) := by
  induction txns with
  | nil => rfl
  | cons t l ih =>
    have hid : (markDeleted tNow id t).id = t.id := by
      rw [markDeleted]; split <;> rfl
    by_cases h : (t.id == id) = true
    · simp [List.find?_cons, hid, h]
    · simp [List.find?_cons, hid, h, ih]

/-! ## Claims C8, C9, C10 -/

/-- C8: a transaction is eligible for the maintenance purge exactly when it
is a tombstone (`deleted`), already synced, and older than the retention
window; a "local" tombstone is never eligible; one updated within the window
is not purged; and with the shipped (disabled) configuration
`purgeOldTombstones` deletes nothing, returns 0 and does not throw. -/
theorem tombstone_purge_gate :
    (∀ (tNow r : ℤ) (t : Txn),
      isTombstoneEligibleForPurge tNow r t = true ↔
        (t.deleted = true ∧ t.syncStatus = .synced ∧ t.updatedAt < tNow - r)) ∧
    (∀ (tNow r : ℤ) (t : Txn), t.syncStatus = .local' →
      isTombstoneEligibleForPurge tNow r t = false) ∧
    (∀ (tNow r : ℤ) (t : Txn), tNow - r ≤ t.updatedAt →
      isTombstoneEligibleForPurge tNow r t = false) ∧
    (∀ (cfg : MaintenanceConfig) (tNow : ℤ) (txns : List Txn),
      cfg.enableTombstonePurge = false → purgeOldTombstones cfg tNow txns = (0, txns)) ∧
    (∀ (tNow : ℤ) (txns : List Txn), purgeOldTombstones MAINTENANCE_CONFIG tNow txns = (0, txns)) := by
  have hiff : ∀ (tNow r : ℤ) (t : Txn),
      isTombstoneEligibleForPurge tNow r t = true ↔
        (t.deleted = true ∧ t.syncStatus = .synced ∧ t.updatedAt < tNow - r) := by
    intro tNow r t
    rw [isTombstoneEligibleForPurge]
    constructor
    · intro h
      by_cases h1 : t.deleted = false
      · rw [if_pos h1] at h; cases h
      · rw [if_neg h1] at h
        by_cases h2 : t.syncStatus ≠ SyncStatus.synced
        · rw [if_pos h2] at h; cases h
        · rw [if_neg h2] at h
          exact ⟨by revert h1; cases t.deleted <;> simp, not_not.mp h2, of_decide_eq_true h⟩
    · rintro ⟨h1, h2, h3⟩
      rw [if_neg (by simp [h1]), if_neg (by simp [h2]), decide_eq_true h3]
  have hdis : ∀ (cfg : MaintenanceConfig) (tNow : ℤ) (txns : List Txn),
      cfg.enableTombstonePurge = false → purgeOldTombstones cfg tNow txns = (0, txns) := by
    intro cfg tNow txns h
    rw [purgeOldTombstones, if_pos h]
  refine ⟨hiff, ?_, ?_, hdis, fun tNow txns => hdis _ tNow txns rfl⟩
  · intro tNow r t h
    by_contra hne
    have := ((hiff tNow r t).mp (by revert hne; cases isTombstoneEligibleForPurge tNow r t <;> simp)).2.1
    rw [h] at this
    cases this
  · intro tNow r t h
    by_contra hne
    have := ((hiff tNow r t).mp (by revert hne; cases isTombstoneEligibleForPurge tNow r t <;> simp)).2.2
    exact absurd this (not_lt.mpr h)

/-- Witness for C8: a synced tombstone updated yesterday (one day before
now, within the 90-day window) is not purged, and the shipped disabled
configuration purges nothing from a store holding an ancient synced
tombstone. -/
theorem tombstone_purge_gate_witness :
    isTombstoneEligibleForPurge 1000 90
      { id := "t", type := .expense, amountCents := 1, categoryId := "c", timestamp := 0,
        updatedAt := 999, syncStatus := .synced, deleted := true } = false ∧
    purgeOldTombstones MAINTENANCE_CONFIG 1000
      [{ id := "t", type := .expense, amountCents := 1, categoryId := "c", timestamp := 0,
         updatedAt := -5000, syncStatus := .synced, deleted := true }] =
      (0, [{ id := "t", type := .expense, amountCents := 1, categoryId := "c", timestamp := 0,
             updatedAt := -5000, syncStatus := .synced, deleted := true }]) :=
  ⟨tombstone_purge_gate.2.2.1 1000 90 _ (by decide),
   tombstone_purge_gate.2.2.2.1 MAINTENANCE_CONFIG 1000 _ rfl⟩

/-- C9: seeding a fresh store produces exactly the six default categories,
each with `userDefined = false`, and running the seeding routine again (at
any time, on any store already seeded) adds nothing — the per-id existence
checks make it idempotent. -/
theorem default_category_seeding :
    (∀ t : ℤ, seedDefaults t [] =
      [ { id := "cat-food", name := "Food & Drink", icon := "fast-food-outline",
          userDefined := false, createdAt := t, updatedAt := t },
        { id := "cat-transport", name := "Transport", icon := "bus-outline",
          userDefined := false, createdAt := t, updatedAt := t },
        { id := "cat-entertainment", name := "Entertainment", icon := "game-controller-outline",
          userDefined := false, createdAt := t, updatedAt := t },
        { id := "cat-school", name := "School", icon := "book-outline",
          userDefined := false, createdAt := t, updatedAt := t },
        { id := "cat-shopping", name := "Shopping", icon := "cart-outline",
          userDefined := false, createdAt := t, updatedAt := t },
        { id := "cat-other", name := "Other", icon := "apps-outline",
          userDefined := false, createdAt := t, updatedAt := t } ]) ∧
    (∀ t : ℤ, (seedDefaults t []).length = 6) ∧
    (∀ t : ℤ, ((seedDefaults t []).all (fun c => c.userDefined == false)) = true) ∧
    (∀ (t' t : ℤ) (cats : List Cat),
      seedDefaults t' (seedDefaults t cats) = seedDefaults t cats) := by
  have hfresh : ∀ t : ℤ, seedDefaults t [] =
      [ { id := "cat-food", name := "Food & Drink", icon := "fast-food-outline",
          userDefined := false, createdAt := t, updatedAt := t },
        { id := "cat-transport", name := "Transport", icon := "bus-outline",
          userDefined := false, createdAt := t, updatedAt := t },
        { id := "cat-entertainment", name := "Entertainment", icon := "game-controller-outline",
          userDefined := false, createdAt := t, updatedAt := t },
        { id := "cat-school", name := "School", icon := "book-outline",
          userDefined := false, createdAt := t, updatedAt := t },
        { id := "cat-shopping", name := "Shopping", icon := "cart-outline",
          userDefined := false, createdAt := t, updatedAt := t },
        { id := "cat-other", name := "Other", icon := "apps-outline",
          userDefined := false, createdAt := t, updatedAt := t } ] := by
    intro t
    simp +decide [seedDefaults, DEFAULT_CATEGORIES, seedStep]
  refine ⟨hfresh, fun t => by rw [hfresh t]; rfl, fun t => by rw [hfresh t]; rfl, ?_⟩
  intro t' t cats
  exact foldl_seedStep_fixed t' DEFAULT_CATEGORIES (seedDefaults t cats)
    (fun c hc => foldl_seedStep_any t DEFAULT_CATEGORIES c hc cats)

/-- C10: the aggregates sum `amountCents` filtered by type over a supplied
collection (by default the active, non-deleted transactions), the balance is
income minus expenses over the same collection, and after a successful
`softDeleteTransaction` the record is gone from `activeTransactions` (hence
from every aggregate over it) while still resolvable by direct id lookup. -/
theorem aggregates_and_soft_delete :
    (∀ source : List Txn, totalIncomeCents source =
      ((source.filter (fun t => t.type == .income)).map (·.amountCents)).sum) ∧
    (∀ source : List Txn, totalExpenseCents source =
      ((source.filter (fun t => t.type == .expense)).map (·.amountCents)).sum) ∧
    (∀ source : List Txn, remainingBalanceCents source =
      totalIncomeCents source - totalExpenseCents source) ∧
    (∀ (tNow : ℤ) (id : String) (txns : List Txn),
      activeTransactions (softDeleteTransaction tNow id txns).2 =
        (activeTransactions txns).filter (fun t => !(t.id == id))) ∧
    (∀ (tNow : ℤ) (id : String) (txns : List Txn),
      (softDeleteTransaction tNow id txns).1 = true →
      ∃ t : Txn, getTransactionById (softDeleteTransaction tNow id txns).2 id = some t ∧
        t.deleted = true) := by
  refine ⟨fun _ => rfl, fun _ => rfl, fun _ => rfl, ?_, ?_⟩
  · intro tNow id txns
    rw [softDelete_snd]
    by_cases h : (txns.find? (fun t => t.id == id)).isSome
    · rw [if_pos h]
      exact activeTransactions_map_markDeleted tNow id txns
    · rw [if_neg h]
      have hnone : txns.find? (fun t => t.id == id) = none := by
        revert h; cases txns.find? (fun t => t.id == id) <;> simp
      have hall : ∀ t ∈ activeTransactions txns, (!(t.id == id)) = true := by
        intro t ht
        have := List.find?_eq_none.mp hnone t (List.mem_of_mem_filter ht)
        simpa using this
      exact (List.filter_eq_self.mpr hall).symm
  · intro tNow id txns h
    rw [softDeleteTransaction] at h
    cases hfind : txns.find? (fun t => t.id == id) with
    | none => rw [hfind] at h; cases h
    | some t0 =>
      have hsnd : (softDeleteTransaction tNow id txns).2 = txns.map (markDeleted tNow id) := by
        rw [softDelete_snd, if_pos (by rw [hfind]; rfl)]
      refine ⟨markDeleted tNow id t0, ?_, ?_⟩
      · rw [getTransactionById, hsnd, find?_map_markDeleted, hfind]
        rfl
      · have hp := List.find?_some hfind
        rw [markDeleted, if_pos hp]

/-- Witness for C10: soft-deleting the only transaction of a concrete store
succeeds and leaves it resolvable by id with the tombstone flag set. -/
theorem aggregates_and_soft_delete_witness :
    (softDeleteTransaction 7 "t1"
      [{ id := "t1", type := .income, amountCents := 500, categoryId := "c", timestamp := 1,
         updatedAt := 1, syncStatus := .synced, deleted := false }]).1 = true ∧
    ∃ t : Txn, getTransactionById (softDeleteTransaction 7 "t1"
      [{ id := "t1", type := .income, amountCents := 500, categoryId := "c", timestamp := 1,
         updatedAt := 1, syncStatus := .synced, deleted := false }]).2 "t1" = some t ∧
      t.deleted = true :=
  ⟨by decide, aggregates_and_soft_delete.2.2.2.2 7 "t1" _ (by decide)⟩

theorem mem_upsertById {α : Type} (key : α → String) (x : α) (l : List α) :
    x ∈ upsertById key x l := by
  rw [upsertById]
  by_cases h : l.any (fun y => key y == key x) = true
  · rw [if_pos h]
    obtain ⟨y, hy, he⟩ := List.any_eq_true.mp h
    exact List.mem_map.mpr ⟨y, hy, by rw [if_pos he]⟩
  · rw [if_neg h]
    simp

/-! ## Claim C5 -/

/-- C5 counterexample: with one transaction referencing category "c" and no
replacement supplied, the Domain Service's `removeCategory` is NOT blocked:
it returns true, the category record is removed, and the transaction is left
pointing at the now-nonexistent category id. -/
theorem removeCategory_without_replacement_not_blocked :
    getTransactionCount "c" refState.txns = 1 ∧
    (removeCategory 10 "c" none refState).1 = true ∧
    ((removeCategory 10 "c" none refState).2.cats.any (fun c => c.id == "c")) = false ∧
    ((removeCategory 10 "c" none refState).2.txns.any (fun t => t.categoryId == "c")) = true := by
  decide

/-- C5 (amended): the Domain Service's `removeCategory` performs no
reference-count guard — it delegates unconditionally to the repository's
`deleteCategory`, and when no replacement id is supplied a present category
is removed while referencing transactions are left unchanged (pointing at
the removed id); only the UI enforces choosing a replacement. -/
theorem removeCategory_delegates :
    (∀ (tNow : ℤ) (id : String) (repl : Option String) (s : LocalState),
      removeCategory tNow id repl s = deleteCategory tNow id repl s) ∧
    (∀ (tNow : ℤ) (id : String) (s : LocalState),
      (s.cats.any (fun c => c.id == id)) = true →
      (removeCategory tNow id none s).1 = true ∧
      (removeCategory tNow id none s).2.txns = s.txns ∧
      (removeCategory tNow id none s).2.cats = s.cats.filter (fun c => !(c.id == id))) := by
  refine ⟨fun _ _ _ _ => rfl, ?_⟩
  intro tNow id s h
  obtain ⟨c0, hc0, hp⟩ := List.any_eq_true.mp h
  cases hfind : s.cats.find? (fun c => c.id == id) with
  | none => exact absurd hp (by simpa using List.find?_eq_none.mp hfind c0 hc0)
  | some c1 => refine ⟨?_, ?_, ?_⟩ <;> simp [removeCategory, deleteCategory, hfind]

/-- Witness for C5 (amended): applying the unguarded deletion to the
concrete referenced category succeeds and leaves the transactions intact. -/
theorem removeCategory_delegates_witness :
    (removeCategory 10 "c" none refState).1 = true ∧
    (removeCategory 10 "c" none refState).2.txns = refState.txns :=
  ⟨(removeCategory_delegates.2 10 "c" refState (by decide)).1,
   (removeCategory_delegates.2 10 "c" refState (by decide)).2.1⟩

/-! ## Claim C6 -/

/-- C6: deleting a present category with a distinct replacement returns true
and, in one atomic state transition, repoints every transaction that
referenced it at the replacement (bumping `updatedAt` to now and resetting
`syncStatus` to "local"), leaves all other transactions untouched, leaves no
transaction referencing the deleted id, removes the category record, and
deletes nothing else; deleting an absent id returns false and changes
nothing. -/
theorem deleteCategory_reassignment :
    (∀ (tNow : ℤ) (C R : String) (s : LocalState),
      (s.cats.any (fun c => c.id == C)) = true → R ≠ C →
      (deleteCategory tNow C (some R) s).1 = true ∧
      (∀ t ∈ s.txns, t.categoryId = C →
        { t with categoryId := R, updatedAt := tNow, syncStatus := SyncStatus.local' }
          ∈ (deleteCategory tNow C (some R) s).2.txns) ∧
      (∀ t ∈ s.txns, t.categoryId ≠ C → t ∈ (deleteCategory tNow C (some R) s).2.txns) ∧
      (∀ t ∈ (deleteCategory tNow C (some R) s).2.txns, t.categoryId ≠ C) ∧
      ((deleteCategory tNow C (some R) s).2.txns.length = s.txns.length) ∧
      (∀ c ∈ (deleteCategory tNow C (some R) s).2.cats, c.id ≠ C)) ∧
    (∀ (tNow : ℤ) (id : String) (repl : Option String) (s : LocalState),
      s.cats.find? (fun c => c.id == id) = none →
      deleteCategory tNow id repl s = (false, s)) := by
  constructor
  · intro tNow C R s hany hR
    obtain ⟨c0, hc0, hp⟩ := List.any_eq_true.mp hany
    cases hfind : s.cats.find? (fun c => c.id == C) with
    | none => exact absurd hp (by simpa using List.find?_eq_none.mp hfind c0 hc0)
    | some c1 =>
      have hres : deleteCategory tNow C (some R) s =
          (true,
           { txns := s.txns.map (fun t =>
               if t.categoryId == C then
                 { t with categoryId := R, updatedAt := tNow, syncStatus := .local' }
               else t),
             cats := s.cats.filter (fun c => !(c.id == C)) }) := by
        simp [deleteCategory, hfind]
      rw [hres]
      refine ⟨rfl, ?_, ?_, ?_, by simp, ?_⟩
      · intro t ht hC
        exact List.mem_map.mpr ⟨t, ht, by rw [if_pos (by simp [hC])]⟩
      · intro t ht hC
        exact List.mem_map.mpr ⟨t, ht, by rw [if_neg (by simp [hC])]⟩
      · intro t' ht'
        obtain ⟨t, _, rfl⟩ := List.mem_map.mp ht'
        by_cases hc : (t.categoryId == C) = true
        · rw [if_pos hc]
          exact fun e => hR e
        · rw [if_neg hc]
          exact fun e => hc (by simp [e])
      · intro c hc
        have := List.of_mem_filter hc
        exact fun e => by simp [e] at this
  · intro tNow id repl s hfind
    simp [deleteCategory, hfind]

/-- Witness for C6: deleting the referenced concrete category "c" with
replacement "r" succeeds and no remaining transaction references "c". -/
theorem deleteCategory_reassignment_witness :
    (deleteCategory 5 "c" (some "r") refState).1 = true ∧
    (∀ t ∈ (deleteCategory 5 "c" (some "r") refState).2.txns, t.categoryId ≠ "c") ∧
    (∀ c ∈ (deleteCategory 5 "c" (some "r") refState).2.cats, c.id ≠ "c") := by
  have h := deleteCategory_reassignment.1 5 "c" "r" refState (by decide) (by decide)
  exact ⟨h.1, h.2.2.2.1, h.2.2.2.2.2⟩

/-! ## Claim C7 -/

/-- C7 counterexample: when a local category with the same id already
exists, the category upsert keeps the EXISTING record's `createdAt` (5)
instead of the remote record's `created_at` (7) — both on the
pull-categories path and on the realtime category handler, which applies
the identical draft; `userDefined` and `updatedAt` do come from the
remote. -/
theorem pullCategories_preserves_existing_createdAt :
    ((pullCategories okEnv catConflictWorld).2.localCats.map
      (fun c => (c.id, c.createdAt, c.updatedAt, c.userDefined))) = [("c", 5, 8, true)] ∧
    ((applyRealtimeCategory 100 .update
        { id := "c", user_id := "u", name := "New", icon := "j", deleted_at := none,
          created_at := 7, updated_at := 8 } catConflictWorld.localCats).map
      (fun c => (c.id, c.createdAt, c.updatedAt, c.userDefined))) = [("c", 5, 8, true)] ∧
    (catConflictWorld.remoteCats.map (·.created_at)) = [7] ∧ (5 : ℤ) ≠ 7 := by
  decide

/-- C7 (amended): every category row applied by the pull-categories phase
AND by the realtime category handler — both build the identical draft and
go through the same `upsertCategory` path — is upserted with `userDefined`
forced true and `updatedAt` taken from the remote record; `createdAt` is
taken from the remote record only when no local record with that id exists —
otherwise the existing record's `createdAt` is preserved. -/
theorem pullCategories_apply :
    (∀ (env : SyncEnv) (w : SyncWorld) (u : String),
      env.user = some u → env.pullCatError = none →
      (pullCategories env w).2.localCats =
        (w.remoteCats.filter (fun r => r.user_id == u && r.deleted_at.isNone)).foldl
          (fun acc r => upsertCategory env.tNow (rowToCatDraft r) acc) w.localCats) ∧
    (∀ (tNow : ℤ) (evt : RealtimeEvent) (r : RemoteCatRow) (cats : List Cat),
      evt = .insert ∨ evt = .update →
      applyRealtimeCategory tNow evt r cats = upsertCategory tNow (rowToCatDraft r) cats) ∧
    (∀ r : RemoteCatRow, (rowToCatDraft r).userDefined = some true ∧
      (rowToCatDraft r).updatedAt = some r.updated_at ∧
      (rowToCatDraft r).createdAt = some r.created_at) ∧
    (∀ (tNow : ℤ) (d : CategoryDraft) (cats : List Cat),
      ∃ c, c ∈ upsertCategory tNow d cats ∧ c.id = d.id ∧
        c.userDefined = d.userDefined.getD true ∧
        c.updatedAt = d.updatedAt.getD tNow ∧
        c.createdAt = (match cats.find? (fun e => e.id == d.id) with
          | some ex => ex.createdAt
          | none => d.createdAt.getD tNow)) := by
  refine ⟨?_, ?_, fun r => ⟨rfl, rfl, rfl⟩, ?_⟩
  · intro env w u hu he
    simp [pullCategories, hu, he]
  · intro tNow evt r cats hevt
    rw [applyRealtimeCategory, if_pos hevt]
  · intro tNow d cats
    exact ⟨_, mem_upsertById (·.id) _ cats, rfl, rfl, rfl, rfl⟩

/-- Witness for C7 (amended): the pull applied to the concrete environment
is exactly the fold of remote-driven upserts, and a realtime UPDATE event
for the same remote row goes through the identical upsert. -/
theorem pullCategories_apply_witness :
    ((pullCategories okEnv catConflictWorld).2.localCats =
      (catConflictWorld.remoteCats.filter (fun r => r.user_id == "u" && r.deleted_at.isNone)).foldl
        (fun acc r => upsertCategory okEnv.tNow (rowToCatDraft r) acc)
        catConflictWorld.localCats) ∧
    (applyRealtimeCategory 100 .update
        { id := "c", user_id := "u", name := "New", icon := "j", deleted_at := none,
          created_at := 7, updated_at := 8 } catConflictWorld.localCats =
      upsertCategory 100
        (rowToCatDraft
          { id := "c", user_id := "u", name := "New", icon := "j", deleted_at := none,
            created_at := 7, updated_at := 8 }) catConflictWorld.localCats) :=
  ⟨pullCategories_apply.1 okEnv catConflictWorld "u" rfl rfl,
   pullCategories_apply.2.1 100 .update _ catConflictWorld.localCats (Or.inr rfl)⟩

/-! ## Sync phase lemmas (claims C1, C2) -/

theorem trace_pullCategories (env : SyncEnv) (w : SyncWorld) :
    (pullCategories env w).2.trace = w.trace ++ [Phase.pullCats] := by
  cases hu : env.user with
  | none => simp [pullCategories, hu]
  | some u =>
    cases he : env.pullCatError with
    | some e => simp [pullCategories, hu, he]
    | none => simp [pullCategories, hu, he]

theorem trace_pullTransactions (env : SyncEnv) (since : Option ℤ) (w : SyncWorld) :
    (pullTransactions env since w).2.trace = w.trace ++ [Phase.pullTxns] := by
  cases hu : env.user with
  | none => simp [pullTransactions, hu]
  | some u =>
    cases he : env.pullTxnError with
    | some e => simp [pullTransactions, hu, he]
    | none => simp [pullTransactions, hu, he]

theorem trace_pushCategories (env : SyncEnv) (w : SyncWorld) :
    (pushCategories env w).2.trace = w.trace ++ [Phase.pushCats] := by
  cases hu : env.user with
  | none => simp [pushCategories, hu]
  | some u =>
    by_cases hc : ((w.localCats.filter (·.userDefined)).isEmpty) = true
    · simp [pushCategories, hu, hc]
    · cases he : env.pushCatError with
      | some e => simp [pushCategories, hu, hc, he]
      | none => simp [pushCategories, hu, hc, he]

theorem trace_pushTransactions (env : SyncEnv) (w : SyncWorld) :
    (pushTransactions env w).2.trace = w.trace ++ [Phase.pushTxns] := by
  cases hu : env.user with
  | none => simp [pushTransactions, hu]
  | some u =>
    cases he : env.pushTxnError with
    | some e => simp [pushTransactions, hu, he]
    | none => simp [pushTransactions, hu, he]

theorem pullCategories_fail_error (env : SyncEnv) (w : SyncWorld)
    (h : (pullCategories env w).1.success = false) :
    (pullCategories env w).1.error.isSome := by
  cases hu : env.user with
  | none => simp [pullCategories, hu]
  | some u =>
    cases he : env.pullCatError with
    | some e => simp [pullCategories, hu, he]
    | none => simp [pullCategories, hu, he] at h

theorem pullTransactions_fail_error (env : SyncEnv) (since : Option ℤ) (w : SyncWorld)
    (h : (pullTransactions env since w).1.success = false) :
    (pullTransactions env since w).1.error.isSome := by
  cases hu : env.user with
  | none => simp [pullTransactions, hu]
  | some u =>
    cases he : env.pullTxnError with
    | some e => simp [pullTransactions, hu, he]
    | none => simp [pullTransactions, hu, he] at h

theorem pushCategories_fail_error (env : SyncEnv) (w : SyncWorld)
    (h : (pushCategories env w).1.success = false) :
    (pushCategories env w).1.error.isSome := by
  cases hu : env.user with
  | none => simp [pushCategories, hu]
  | some u =>
    by_cases hc : ((w.localCats.filter (·.userDefined)).isEmpty) = true
    · simp [pushCategories, hu, hc] at h
    · cases he : env.pushCatError with
      | some e => simp [pushCategories, hu, hc, he]
      | none => simp [pushCategories, hu, hc, he] at h

theorem pushTransactions_fail_error (env : SyncEnv) (w : SyncWorld)
    (h : (pushTransactions env w).1.success = false) :
    (pushTransactions env w).1.error.isSome := by
  cases hu : env.user with
  | none => simp [pushTransactions, hu]
  | some u =>
    cases he : env.pushTxnError with
    | some e => simp [pushTransactions, hu, he]
    | none => simp [pushTransactions, hu, he] at h

/-! ## Claim C2 -/

/-- C2: `pullTransactions` with `since = T` constructs a query constrained to
the user's rows with `updated_at > T` — no row with `updated_at <= T` is
requested — and every received row is upserted locally with
`syncStatus = "synced"` and `deleted = (deleted_at != null)`; with `since`
omitted the query fetches all of the user's rows. -/
theorem pullTransactions_incremental_filter :
    (∀ (u : String) (T : ℤ), buildTxnQuery u (some T) = { userId := u, updatedAtGt := some T }) ∧
    (∀ (u : String) (T : ℤ) (rows : List RemoteTxnRow),
      ∀ r ∈ runTxnQuery (buildTxnQuery u (some T)) rows, r.user_id = u ∧ T < r.updated_at) ∧
    (∀ (u : String) (T : ℤ) (rows : List RemoteTxnRow),
      ∀ r ∈ rows, r.updated_at ≤ T → r ∉ runTxnQuery (buildTxnQuery u (some T)) rows) ∧
    (∀ (u : String) (rows : List RemoteTxnRow),
      runTxnQuery (buildTxnQuery u none) rows = rows.filter (fun r => r.user_id == u)) ∧
    (∀ (env : SyncEnv) (since : Option ℤ) (w : SyncWorld) (u : String),
      env.user = some u → env.pullTxnError = none →
      (pullTransactions env since w).1 = { success := true, error := none } ∧
      (pullTransactions env since w).2.localTxns =
        (runTxnQuery (buildTxnQuery u since) w.remoteTxns).foldl
          (fun acc r => upsertTransaction env.tNow (rowToTxnDraft r) acc) w.localTxns) ∧
    (∀ r : RemoteTxnRow, (rowToTxnDraft r).syncStatus = some .synced ∧
      (rowToTxnDraft r).deleted = some r.deleted_at.isSome) ∧
    (∀ (tNow : ℤ) (d : TransactionDraft) (txns : List Txn),
      ∃ t, t ∈ upsertTransaction tNow d txns ∧ t.id = d.id ∧
        t.syncStatus = d.syncStatus.getD .local' ∧ t.deleted = d.deleted.getD false ∧
        t.amountCents = d.amountCents ∧ t.categoryId = d.categoryId ∧
        t.updatedAt = tNow) := by
  have hmatch : ∀ (u : String) (T : ℤ) (rows : List RemoteTxnRow),
      ∀ r ∈ runTxnQuery (buildTxnQuery u (some T)) rows, r.user_id = u ∧ T < r.updated_at := by
    intro u T rows r hr
    have h := List.of_mem_filter hr
    simp only [matchesTxnQuery, buildTxnQuery, Bool.and_eq_true] at h
    exact ⟨by simpa using h.1, of_decide_eq_true h.2⟩
  refine ⟨fun _ _ => rfl, hmatch, ?_, ?_, ?_, fun r => ⟨rfl, rfl⟩, ?_⟩
  · intro u T rows r _ hle hmem
    exact absurd (hmatch u T rows r hmem).2 (not_lt.mpr hle)
  · intro u rows
    apply List.filter_congr
    intro r _
    simp [matchesTxnQuery, buildTxnQuery]
  · intro env since w u hu he
    constructor <;> simp [pullTransactions, hu, he]
  · intro tNow d txns
    exact ⟨_, mem_upsertById (·.id) _ txns, rfl, rfl, rfl, rfl, rfl, rfl⟩

/-- Witness for C2: the incremental pull at cutoff 3 against a concrete
remote succeeds and applies exactly the rows the query returns. -/
theorem pullTransactions_incremental_filter_witness :
    (pullTransactions okEnv (some 3) pullWorld).1 = { success := true, error := none } ∧
    (pullTransactions okEnv (some 3) pullWorld).2.localTxns =
      (runTxnQuery (buildTxnQuery "u" (some 3)) pullWorld.remoteTxns).foldl
        (fun acc r => upsertTransaction okEnv.tNow (rowToTxnDraft r) acc)
        pullWorld.localTxns :=
  pullTransactions_incremental_filter.2.2.2.2.1 okEnv (some 3) pullWorld "u" rfl rfl

/-! ## Claim C1 -/

/-- C1: within one `syncAll` the four phases run in the order pull
categories, pull transactions, push categories, push transactions; a failing
phase's result is returned as is (success false with an error string, never
a thrown exception — every phase is total) together with the world as the
failing phase left it, so no later phase runs and the effects of phases
already completed are retained; the trace equalities pin the order and the
short-circuit points. -/
theorem syncAll_phase_ordering :
    ∀ (env : SyncEnv) (init : Bool) (last : Option ℤ) (w : SyncWorld),
      ((pullCategories env w).1.success = false →
        syncAll env init last w = pullCategories env w) ∧
      ((pullCategories env w).1.success = true →
        (pullTransactions env (syncSince init last) (pullCategories env w).2).1.success = false →
        syncAll env init last w =
          pullTransactions env (syncSince init last) (pullCategories env w).2) ∧
      ((pullCategories env w).1.success = true →
        (pullTransactions env (syncSince init last) (pullCategories env w).2).1.success = true →
        (pushCategories env
          (pullTransactions env (syncSince init last) (pullCategories env w).2).2).1.success = false →
        syncAll env init last w =
          pushCategories env
            (pullTransactions env (syncSince init last) (pullCategories env w).2).2) ∧
      ((pullCategories env w).1.success = true →
        (pullTransactions env (syncSince init last) (pullCategories env w).2).1.success = true →
        (pushCategories env
          (pullTransactions env (syncSince init last) (pullCategories env w).2).2).1.success = true →
        syncAll env init last w =
          pushTransactions env
            (pushCategories env
              (pullTransactions env (syncSince init last) (pullCategories env w).2).2).2) ∧
      ((pullCategories env w).2.trace = w.trace ++ [Phase.pullCats]) ∧
      ((pullTransactions env (syncSince init last) (pullCategories env w).2).2.trace =
        w.trace ++ [Phase.pullCats, Phase.pullTxns]) ∧
      ((pushCategories env
          (pullTransactions env (syncSince init last) (pullCategories env w).2).2).2.trace =
        w.trace ++ [Phase.pullCats, Phase.pullTxns, Phase.pushCats]) ∧
      ((pushTransactions env
          (pushCategories env
            (pullTransactions env (syncSince init last) (pullCategories env w).2).2).2).2.trace =
        w.trace ++ [Phase.pullCats, Phase.pullTxns, Phase.pushCats, Phase.pushTxns]) ∧
      ((syncAll env init last w).1.success = false →
        (syncAll env init last w).1.error.isSome) := by
  intro env init last w
  have t1 := trace_pullCategories env w
  have t2 : (pullTransactions env (syncSince init last) (pullCategories env w).2).2.trace =
      w.trace ++ [Phase.pullCats, Phase.pullTxns] := by
    rw [trace_pullTransactions, t1, List.append_assoc]
    rfl
  have t3 : (pushCategories env
      (pullTransactions env (syncSince init last) (pullCategories env w).2).2).2.trace =
      w.trace ++ [Phase.pullCats, Phase.pullTxns, Phase.pushCats] := by
    rw [trace_pushCategories, t2, List.append_assoc]
    rfl
  have t4 : (pushTransactions env
      (pushCategories env
        (pullTransactions env (syncSince init last) (pullCategories env w).2).2).2).2.trace =
      w.trace ++ [Phase.pullCats, Phase.pullTxns, Phase.pushCats, Phase.pushTxns] := by
    rw [trace_pushTransactions, t3, List.append_assoc]
    rfl
  have c1 : (pullCategories env w).1.success = false →
      syncAll env init last w = pullCategories env w := by
    intro h
    simp only [syncAll]
    rw [if_pos h]
  have c2 : (pullCategories env w).1.success = true →
      (pullTransactions env (syncSince init last) (pullCategories env w).2).1.success = false →
      syncAll env init last w =
        pullTransactions env (syncSince init last) (pullCategories env w).2 := by
    intro h1 h2
    simp only [syncAll]
    rw [if_neg (by simp [h1]), if_pos h2]
  have c3 : (pullCategories env w).1.success = true →
      (pullTransactions env (syncSince init last) (pullCategories env w).2).1.success = true →
      (pushCategories env
        (pullTransactions env (syncSince init last) (pullCategories env w).2).2).1.success = false →
      syncAll env init last w =
        pushCategories env
          (pullTransactions env (syncSince init last) (pullCategories env w).2).2 := by
    intro h1 h2 h3
    simp only [syncAll]
    rw [if_neg (by simp [h1]), if_neg (by simp [h2]), if_pos h3]
  have c4 : (pullCategories env w).1.success = true →
      (pullTransactions env (syncSince init last) (pullCategories env w).2).1.success = true →
      (pushCategories env
        (pullTransactions env (syncSince init last) (pullCategories env w).2).2).1.success = true →
      syncAll env init last w =
        pushTransactions env
          (pushCategories env
            (pullTransactions env (syncSince init last) (pullCategories env w).2).2).2 := by
    intro h1 h2 h3
    simp only [syncAll]
    rw [if_neg (by simp [h1]), if_neg (by simp [h2]), if_neg (by simp [h3])]
  refine ⟨c1, c2, c3, c4, t1, t2, t3, t4, ?_⟩
  intro hfail
  cases hs1 : (pullCategories env w).1.success with
  | false =>
    rw [c1 hs1]
    exact pullCategories_fail_error env w hs1
  | true =>
    cases hs2 : (pullTransactions env (syncSince init last) (pullCategories env w).2).1.success with
    | false =>
      rw [c2 hs1 hs2]
      exact pullTransactions_fail_error env _ _ hs2
    | true =>
      cases hs3 : (pushCategories env
          (pullTransactions env (syncSince init last) (pullCategories env w).2).2).1.success with
      | false =>
        rw [c3 hs1 hs2 hs3]
        exact pushCategories_fail_error env _ hs3
      | true =>
        rw [c4 hs1 hs2 hs3] at hfail ⊢
        exact pushTransactions_fail_error env _ hfail

/-- Witness for C1: in a cycle whose pull-transactions select fails, syncAll
returns that failure and the trace shows only the first two phases ran. -/
theorem syncAll_phase_ordering_witness :
    (syncAll pullTxnFailEnv false none emptyWorld).1 =
      { success := false, error := some "boom" } ∧
    (syncAll pullTxnFailEnv false none emptyWorld).2.trace =
      [Phase.pullCats, Phase.pullTxns] := by
  have h := (syncAll_phase_ordering pullTxnFailEnv false none emptyWorld).2.1
    (by decide) (by decide)
  rw [h]
  exact ⟨by decide, by decide⟩

end PiggyTracker
